import Mathlib

/-!
# Verification of the seismiqb notebook glue code

Shallow embedding of the three notebook components of the repository:
the slice exporter (`datasets/02_Cube_demo.ipynb`), the metric reporter
(the metrics notebook), and the iterative-results summarizer
(`models/Carcass_interpolation/02_Iterative_results.ipynb`), together
with proofs of the testable properties stated in the specification.
-/

set_option autoImplicit false

namespace Seismiqb

/-! ## Slice exporter (`02_Cube_demo.ipynb`)

The inner loop of the slice exporter is

```python
length = geometry.lens[i]
step = length // N
locs = list(range(step // 3, length, step))
```

`range` with a positive step yields `start, start+step, ...` while `< stop`;
with step `0` Python raises `ValueError`, which we embed as `none`.
-/

/-- Python `list(range(start, stop, step))` for a nonnegative step.
`range` raises `ValueError` when `step == 0` (embedded as `none`);
for positive `step` the result has `max(0, ceil((stop-start)/step))`
elements, which in truncated `Nat` subtraction is
`(stop - start + step - 1) / step`. -/
def pyRange (start stop step : Nat) : Option (List Nat) :=
  if step = 0 then none
  else some ((List.range ((stop - start + step - 1) / step)).map
    (fun i => start + i * step))

/-- Number of sample locations the slice exporter generates for an axis of
extent `length` with slide count `N` (meaningful when `length / N > 0`). -/
def numLocs (length N : Nat) : Nat :=
  (length - (length / N) / 3 + length / N - 1) / (length / N)

/-- `locs = list(range(step // 3, length, step))` with `step = length // N`. -/
def locs (length N : Nat) : Option (List Nat) :=
  pyRange ((length / N) / 3) length (length / N)

/-! ## Python string helpers shared by the notebooks -/

/-- Python `s.split(sep)` for a single-character separator, at the level of
character lists: splitting the empty string gives `[""]`, every occurrence
of the separator starts a new piece. -/
def splitOnChar (sep : Char) : List Char → List (List Char)
  | [] => [[]]
  | c :: rest =>
    let r := splitOnChar sep rest
    if c = sep then [] :: r
    else (c :: r.headD []) :: r.tail

/-- Python `sep.join(strings)`: empty list gives `""`, otherwise the pieces
interleaved with the separator. -/
def joinWith (sep : String) : List String → String
  | [] => ""
  | [x] => x
  | x :: xs => x ++ sep ++ joinWith sep xs

/-- Character-list version of `joinWith`, used to reason about the result. -/
def joinData (sep : List Char) : List (List Char) → List Char
  | [] => []
  | [x] => x
  | x :: xs => x ++ sep ++ joinData sep xs

/-- Python `s.startswith(p)`. -/
def pyStartswith (s p : String) : Bool :=
  p.data.isPrefixOf s.data

/-! ## Metric reporter (metrics notebook)

```python
kwargs = copy(local_kwargs) if metric_name.startswith('local') else copy(support_kwargs)
if ADD_PREFIX:
    save_path += '@'
    save_path += '|'.join([':'.join([key,str(value)]) for key, value in kwargs.items()])
```
-/

/-- A Python value appearing in the notebook's parameter dictionaries. -/
inductive PyVal where
  | pyNone
  | pyInt (n : Int)
  | pyStr (s : String)
deriving DecidableEq

/-- Python `str(value)` for the values that occur in the presets. -/
def pyStrOf : PyVal → String
  | .pyNone => "None"
  | .pyInt n => toString n
  | .pyStr s => s

/-- `local_kwargs = {'agg': None, 'kernel_size': 3, 'reduce_func': 'mean'}`,
as an ordered association list (Python dicts preserve insertion order). -/
def local_kwargs : List (String × PyVal) :=
  [("agg", .pyNone), ("kernel_size", .pyInt 3), ("reduce_func", .pyStr "mean")]

/-- `support_kwargs = {'agg': 'mean', 'supports': 20}`. -/
def support_kwargs : List (String × PyVal) :=
  [("agg", .pyStr "mean"), ("supports", .pyInt 20)]

/-- `kwargs = copy(local_kwargs) if metric_name.startswith('local') else copy(support_kwargs)`.
`copy` is irrelevant in a pure embedding. -/
def selectKwargs (metric_name : String) : List (String × PyVal) :=
  if pyStartswith metric_name "local" then local_kwargs else support_kwargs

/-- `':'.join([key, str(value)])` for one dictionary entry. -/
def encodePair (kv : String × PyVal) : String :=
  joinWith ":" [kv.1, pyStrOf kv.2]

/-- `'|'.join([':'.join([key,str(value)]) for key, value in kwargs.items()])`. -/
def paramSuffix (kwargs : List (String × PyVal)) : String :=
  joinWith "|" (kwargs.map encodePair)

/-- The save path built for one metric:
`save_path = '/'.join((cube_dir, metric_name))`, then when `ADD_PREFIX`
holds, `'@'` and the parameter encoding are appended. -/
def metricSavePath (cube_dir metric_name : String) (addParams : Bool) : String :=
  let base := joinWith "/" [cube_dir, metric_name]
  if addParams then base ++ "@" ++ paramSuffix (selectKwargs metric_name)
  else base

/-- One observable call made by the metric reporter's per-cube body. -/
inductive MEvent (α : Type) where
  | evalMetric (name : String) (kwargs : List (String × PyVal)) (result : α)
  | evalQualityMap (computed : List α)
deriving DecidableEq

/-- The inner `for metric_name in metrics` loop: starting from accumulators
`computed` (the list `computed_metrics`) and `trace` (the calls made so far),
each metric is evaluated with its selected preset and appended. `ev` is the
external evaluator `gm.evaluate`, opaque to the notebook. -/
def metricLoop {α : Type} (ev : String → List (String × PyVal) → α) :
    List String → List α → List (MEvent α) → List α × List (MEvent α)
  | [], computed, trace => (computed, trace)
  | m :: rest, computed, trace =>
    let kw := selectKwargs m
    let r := ev m kw
    metricLoop ev rest (computed ++ [r]) (trace ++ [.evalMetric m kw r])

/-- The per-cube body of the metric reporter: run the metric loop, then call
the quality-map evaluator on the collected `computed_metrics`. The result is
the ordered trace of evaluator calls. -/
def processCube {α : Type} (ev : String → List (String × PyVal) → α)
    (metrics : List String) : List (MEvent α) :=
  let (computed, trace) := metricLoop ev metrics [] []
  trace ++ [.evalQualityMap computed]

/-- Value of the Python variable `kwargs` after the metric loop finishes:
it is rebound on each iteration and keeps the binding of the last one;
before any iteration it is unbound (`none`, a `NameError` when read). -/
def finalKwargs (metrics : List String) : Option (List (String × PyVal)) :=
  metrics.foldl (fun _ m => some (selectKwargs m)) none

/-- The save path built for the quality map after the loop:
`save_path = '/'.join((cube_dir, 'quality_map'))`, then when `ADD_PREFIX`
holds, `'@'` and the encoding of the leaked loop variable `kwargs` are
appended (a `NameError`, i.e. `none`, when the metric list was empty). -/
def qualityMapSavePath (cube_dir : String) (metrics : List String)
    (addParams : Bool) : Option String :=
  let base := joinWith "/" [cube_dir, "quality_map"]
  if addParams then
    (finalKwargs metrics).map (fun kw => base ++ "@" ++ paramSuffix kw)
  else some base

/-! ## Output-directory creation

```python
try: os.mkdir(cube_dir)
except FileExistsError: pass
```
-/

/-- Errors `os.mkdir` can raise in this model: the directory already exists,
or its parent directory is missing. -/
inductive MkdirError where
  | fileExists
  | fileNotFound
deriving DecidableEq

/-- Parent directory of a path, `none` for a top-level name. -/
def parentOf (p : String) : Option String :=
  let parts := splitOnChar '/' p.data
  if parts.length ≤ 1 then none
  else some (String.mk (joinData ['/'] parts.dropLast))

/-- `os.mkdir(p)` over a filesystem modelled as the list of existing
directories: raises `FileExistsError` when `p` exists, `FileNotFoundError`
when its parent is missing, and otherwise records the new directory. -/
def os_mkdir (dirs : List String) (p : String) : Except MkdirError (List String) :=
  if p ∈ dirs then .error .fileExists
  else
    match parentOf p with
    | none => .ok (dirs ++ [p])
    | some par => if par ∈ dirs then .ok (dirs ++ [p]) else .error .fileNotFound

/-- `try: os.mkdir(p)` with `except FileExistsError: pass`: the
already-exists error is swallowed leaving the filesystem unchanged; every
other error propagates. -/
def mkdirIgnoreExisting (dirs : List String) (p : String) :
    Except MkdirError (List String) :=
  match os_mkdir dirs p with
  | .error .fileExists => .ok dirs
  | r => r

/-! ## Iterative-results summarizer (`02_Iterative_results.ipynb`)

```python
df = results.df[columns + ['cube_and_horizon', 'repetition']]
df['cube_name'] = df['cube_and_horizon'].apply(lambda item: item.split('+')[0])
df['horizon_name'] = df['cube_and_horizon'].apply(lambda item: item.split('+')[1])
dff = df.reset_index().set_index(['cube_name', 'horizon_name'])[columns]
```

Metric values are opaque payloads (floats in the notebook); the embedding
keeps them as an abstract type `α`. Pandas column selection
(`results.df[columns]`) returns a copy, so the later column assignments
mutate only that working copy; mutation of the copy is state passing here.
-/

/-- One row of the persisted results table, restricted to the columns the
notebook reads. -/
structure ResRow (α : Type) where
  coverages : List α
  window_rates : List α
  corrs : List α
  local_corrs : List α
  cube_and_horizon : String
  repetition : Nat
deriving DecidableEq

/-- The loaded results store (`Results(res_name)`): read-only in the
notebook, exposing its dataframe `df`. -/
structure ResultsStore (α : Type) where
  df : List (ResRow α)
deriving DecidableEq

/-- `results.df[columns + ['cube_and_horizon', 'repetition']]`: a fresh
table holding a copy of the selected columns of every row. -/
def projectDf {α : Type} (rows : List (ResRow α)) : List (ResRow α) :=
  rows.map (fun r =>
    ⟨r.coverages, r.window_rates, r.corrs, r.local_corrs,
     r.cube_and_horizon, r.repetition⟩)

/-- `(item.split('+')[0], item.split('+')[1])`: the first two pieces of the
composite key; `none` (an `IndexError`) when there is no delimiter. -/
def keyParts (s : String) : Option (String × String) :=
  match (splitOnChar '+' s.data)[0]?, (splitOnChar '+' s.data)[1]? with
  | some a, some b => some (String.mk a, String.mk b)
  | _, _ => none

/-- A working-copy row after the two column assignments added `cube_name`
and `horizon_name`. -/
structure KeyedRow (α : Type) where
  base : ResRow α
  cube_name : String
  horizon_name : String
deriving DecidableEq

/-- The two `df[...] = df['cube_and_horizon'].apply(...)` assignments:
every row of the working copy gains the two split columns; any row whose
key has no delimiter aborts the cell (`none`). -/
def addKeyColumns {α : Type} : List (ResRow α) → Option (List (KeyedRow α))
  | [] => some []
  | r :: rest =>
    match keyParts r.cube_and_horizon with
    | none => none
    | some (a, b) =>
      match addKeyColumns rest with
      | none => none
      | some ks => some (⟨r, a, b⟩ :: ks)

/-- One row of `dff`: the two-level `(cube_name, horizon_name)` index plus
the four projected metric columns. -/
structure IndexedRow (α : Type) where
  cube_name : String
  horizon_name : String
  coverages : List α
  window_rates : List α
  corrs : List α
  local_corrs : List α
deriving DecidableEq

/-- `df.reset_index().set_index(['cube_name', 'horizon_name'])[columns]`:
one indexed row per working-copy row, in order; `set_index` does not merge
or drop rows. -/
def setIndexRows {α : Type} (rows : List (KeyedRow α)) : List (IndexedRow α) :=
  rows.map (fun k =>
    ⟨k.cube_name, k.horizon_name,
     k.base.coverages, k.base.window_rates, k.base.corrs, k.base.local_corrs⟩)

/-- One row of the final display table: per-iteration expansions of three
sequence columns (`pd.Series` expansion keeps the whole sequence; the
`rename` only relabels the first three columns, which a value-level model
ignores). -/
structure DisplayRow (α : Type) where
  cube_name : String
  horizon_name : String
  window_rate : List α
  coverage : List α
  corr : List α
deriving DecidableEq

/-- Ordering used by `sort_index()`: lexicographic on the two index
levels. -/
def rowLE {α : Type} (a b : DisplayRow α) : Bool :=
  if a.cube_name = b.cube_name then decide (a.horizon_name ≤ b.horizon_name)
  else decide (a.cube_name < b.cube_name)

/-- Insert into a sorted list (`sort_index` modelled as insertion sort). -/
def insertLE {α : Type} (x : DisplayRow α) : List (DisplayRow α) → List (DisplayRow α)
  | [] => [x]
  | y :: ys => if rowLE x y then x :: y :: ys else y :: insertLE x ys

/-- `pd.concat((wr, cov, corrs), axis=1).sort_index()`: build the display
rows and sort them by the two-level index. -/
def iterDisplay {α : Type} (rows : List (IndexedRow α)) : List (DisplayRow α) :=
  (rows.map (fun r =>
    (⟨r.cube_name, r.horizon_name, r.window_rates, r.coverages, r.corrs⟩ :
      DisplayRow α))).foldr insertLE []

/-- The whole summarizer run on a loaded store: project, split the key,
re-index, reshape. The store is threaded through untouched; the output is
`none` when a key split fails. -/
def summarize {α : Type} (store : ResultsStore α) :
    ResultsStore α × Option (List (DisplayRow α)) :=
  let df := projectDf store.df
  match addKeyColumns df with
  | none => (store, none)
  | some keyed => (store, some (iterDisplay (setIndexRows keyed)))

/-! ## Helper lemmas -/

/-- The ceiling-style quotient `(N*s + r - off + s - 1) / s` equals `N`
when the remainder `r` does not exceed the offset `off < s`. -/
theorem ceilDiv_eq (N s r off : Nat) (hs : 0 < s) (hoff : off < s) (hr : r ≤ off) :
    (N * s + r - off + s - 1) / s = N := by
  have hexp : (N + 1) * s = N * s + s := by ring
  apply Nat.div_eq_of_lt_le <;> omega

/-- The ceiling-style quotient `(N*s + r - off + s - 1) / s` is at least `N`
whenever `off < s`. -/
theorem ceilDiv_ge (N s r off : Nat) (hs : 0 < s) (hoff : off < s) :
    N ≤ (N * s + r - off + s - 1) / s := by
  rw [Nat.le_div_iff_mul_le hs]
  omega

/-- When the stride is positive, `locs` succeeds and returns the arithmetic
progression of `numLocs` terms. -/
theorem locs_eq_some (E N : Nat) (hs : 0 < E / N) :
    locs E N =
      some ((List.range (numLocs E N)).map (fun i => E / N / 3 + i * (E / N))) := by
  rw [locs, pyRange, if_neg (by omega)]
  rfl

/-- Every element produced by `pyRange` with a positive step is below the
stop bound. -/
theorem pyRange_mem_lt (start stop step x : Nat) (hstep : 0 < step)
    (L : List Nat) (hL : pyRange start stop step = some L) (hx : x ∈ L) :
    x < stop := by
  rw [pyRange, if_neg (by omega)] at hL
  obtain ⟨i, hi, hix⟩ := List.mem_map.mp (Option.some.inj hL ▸ hx)
  rw [List.mem_range] at hi
  subst hix
  have h2 : (i + 1) * step ≤ ((stop - start + step - 1) / step) * step :=
    Nat.mul_le_mul_right step hi
  have h3 : ((stop - start + step - 1) / step) * step ≤ stop - start + step - 1 :=
    Nat.div_mul_le_self _ _
  have h4 : (i + 1) * step = i * step + step := by ring
  have h5 : 1 * step ≤ ((stop - start + step - 1) / step) * step :=
    Nat.mul_le_mul_right step (by omega)
  have h6 : i * step + step ≤ stop - start + step - 1 := le_trans (h4 ▸ h2) h3
  rw [one_mul] at h5
  have h7 : step ≤ stop - start + step - 1 := le_trans h5 h3
  omega

/-- `numLocs` counts exactly `N` when the division remainder of the extent
is at most the starting offset. -/
theorem numLocs_eq (E N : Nat) (hN : 0 < N) (hE : N ≤ E) (hr : E % N ≤ E / N / 3) :
    numLocs E N = N := by
  have hs : 0 < E / N := Nat.div_pos hE hN
  have hoff : E / N / 3 < E / N := Nat.div_lt_self hs (by norm_num)
  have hmod : N * (E / N) + E % N = E := Nat.div_add_mod E N
  have h1 : E - E / N / 3 + E / N - 1
      = N * (E / N) + E % N - E / N / 3 + E / N - 1 := by rw [hmod]
  rw [numLocs, h1]
  exact ceilDiv_eq N (E / N) (E % N) (E / N / 3) hs hoff hr

/-- `numLocs` counts at least `N` whenever the extent is at least `N`. -/
theorem numLocs_ge (E N : Nat) (hN : 0 < N) (hE : N ≤ E) :
    N ≤ numLocs E N := by
  have hs : 0 < E / N := Nat.div_pos hE hN
  have hoff : E / N / 3 < E / N := Nat.div_lt_self hs (by norm_num)
  have hmod : N * (E / N) + E % N = E := Nat.div_add_mod E N
  have h1 : E - E / N / 3 + E / N - 1
      = N * (E / N) + E % N - E / N / 3 + E / N - 1 := by rw [hmod]
  rw [numLocs, h1]
  exact ceilDiv_ge N (E / N) (E % N) (E / N / 3) hs hoff

/-- Splitting never yields an empty list of pieces. -/
theorem splitOnChar_ne_nil (sep : Char) (cs : List Char) :
    splitOnChar sep cs ≠ [] := by
  cases cs with
  | nil => simp [splitOnChar]
  | cons c rest =>
    simp only [splitOnChar]
    split <;> simp

/-- One step of splitting at a matching head character. -/
theorem splitOnChar_cons_self (sep : Char) (rest : List Char) :
    splitOnChar sep (sep :: rest) = [] :: splitOnChar sep rest := by
  simp [splitOnChar]

/-- One step of splitting at a non-matching head character. -/
theorem splitOnChar_cons_ne (sep c : Char) (rest : List Char) (h : c ≠ sep) :
    splitOnChar sep (c :: rest)
      = (c :: (splitOnChar sep rest).headD []) :: (splitOnChar sep rest).tail := by
  simp only [splitOnChar]
  rw [if_neg h]

/-- Splitting a string that does not contain the separator yields the whole
string as the single piece. -/
theorem splitOnChar_not_mem (sep : Char) (cs : List Char) (h : sep ∉ cs) :
    splitOnChar sep cs = [cs] := by
  induction cs with
  | nil => rfl
  | cons c rest ih =>
    rw [List.mem_cons] at h
    push_neg at h
    rw [splitOnChar_cons_ne sep c rest (fun hc => h.1 hc.symm), ih h.2]
    rfl

/-- Splitting past a separator-free head piece. -/
theorem splitOnChar_append (sep : Char) (xs ys : List Char) (h : sep ∉ xs) :
    splitOnChar sep (xs ++ sep :: ys) = xs :: splitOnChar sep ys := by
  induction xs with
  | nil => rw [List.nil_append, splitOnChar_cons_self]
  | cons x xs ih =>
    rw [List.mem_cons] at h
    push_neg at h
    rw [List.cons_append,
      splitOnChar_cons_ne sep x (xs ++ sep :: ys) (fun hc => h.1 hc.symm),
      ih h.2]
    rfl

/-- A list with exactly one occurrence of `sep` decomposes around it. -/
theorem count_one_decomp (sep : Char) (cs : List Char) (h : cs.count sep = 1) :
    ∃ a b, cs = a ++ sep :: b ∧ sep ∉ a ∧ sep ∉ b := by
  induction cs with
  | nil => simp at h
  | cons c rest ih =>
    rw [List.count_cons] at h
    by_cases hc : c = sep
    · subst hc
      have hz : rest.count c = 0 := by simp at h; omega
      rw [List.count_eq_zero] at hz
      exact ⟨[], rest, rfl, by simp, hz⟩
    · have hcount : rest.count sep = 1 := by simp [hc] at h; omega
      obtain ⟨a, b, hdec, ha, hb⟩ := ih hcount
      refine ⟨c :: a, b, by rw [hdec]; rfl, ?_, hb⟩
      rw [List.mem_cons]
      push_neg
      exact ⟨fun hsc => hc hsc.symm, ha⟩

/-- A list containing the separator exactly once splits into exactly the
two surrounding pieces. -/
theorem split_count_one (sep : Char) (cs : List Char) (h : cs.count sep = 1) :
    ∃ a b, splitOnChar sep cs = [a, b] ∧ cs = a ++ sep :: b
      ∧ sep ∉ a ∧ sep ∉ b := by
  obtain ⟨a, b, hdec, ha, hb⟩ := count_one_decomp sep cs h
  refine ⟨a, b, ?_, hdec, ha, hb⟩
  rw [hdec, splitOnChar_append sep a b ha, splitOnChar_not_mem sep b hb]

/-- `joinWith` agrees with its character-list counterpart. -/
theorem joinWith_data (sep : String) : ∀ (l : List String),
    (joinWith sep l).data = joinData sep.data (l.map String.data)
  | [] => rfl
  | [x] => rfl
  | x :: y :: ys => by
    simp only [joinWith, joinData, List.map, String.data_append,
      joinWith_data sep (y :: ys)]

/-- Splitting undoes joining when the pieces are nonempty as a list and
none of them contains the separator. -/
theorem splitOnChar_joinData (sep : Char) : ∀ (pieces : List (List Char)),
    pieces ≠ [] → (∀ p ∈ pieces, sep ∉ p) →
    splitOnChar sep (joinData [sep] pieces) = pieces
  | [], h, _ => absurd rfl h
  | [x], _, hp => by
    simp only [joinData]
    exact splitOnChar_not_mem sep x (hp x (by simp))
  | x :: y :: ys, _, hp => by
    have hx : sep ∉ x := hp x (by simp)
    have hjoin : joinData [sep] (x :: y :: ys)
        = x ++ sep :: joinData [sep] (y :: ys) := by
      simp [joinData]
    rw [hjoin, splitOnChar_append sep x _ hx,
      splitOnChar_joinData sep (y :: ys) (by simp)
        (fun p hmem => hp p (by simp [hmem]))]

/-- `keyParts` on a key with exactly one delimiter returns the two
surrounding pieces. -/
theorem keyParts_of_count_one (s : String) (h : s.data.count '+' = 1) :
    ∃ a b, keyParts s = some (String.mk a, String.mk b)
      ∧ s.data = a ++ '+' :: b ∧ '+' ∉ a ∧ '+' ∉ b := by
  obtain ⟨a, b, hsplit, hdec, ha, hb⟩ := split_count_one '+' s.data h
  refine ⟨a, b, ?_, hdec, ha, hb⟩
  rw [keyParts, hsplit]
  rfl

/-- The inner metric loop is a map over the metric list, appended to the
accumulators in order. -/
theorem metricLoop_eq {α : Type} (ev : String → List (String × PyVal) → α) :
    ∀ (ms : List String) (computed : List α) (trace : List (MEvent α)),
    metricLoop ev ms computed trace
      = (computed ++ ms.map (fun m => ev m (selectKwargs m)),
         trace ++ ms.map (fun m =>
           MEvent.evalMetric m (selectKwargs m) (ev m (selectKwargs m))))
  | [], computed, trace => by simp [metricLoop]
  | m :: rest, computed, trace => by
    rw [metricLoop, metricLoop_eq ev rest]
    simp

/-- After a nonempty loop, the leaked `kwargs` variable holds the preset of
the last metric, whatever binding it started from. -/
theorem foldl_selectKwargs_last :
    ∀ (ms : List String) (h : ms ≠ []) (init : Option (List (String × PyVal))),
    ms.foldl (fun _ m => some (selectKwargs m)) init
      = some (selectKwargs (ms.getLast h))
  | [m], _, _ => by simp
  | m :: m2 :: rest, _, init => by
    rw [List.foldl_cons, foldl_selectKwargs_last (m2 :: rest) (by simp)]
    rw [List.getLast_cons (by simp : (m2 :: rest : List String) ≠ [])]

/-- A successful raw `mkdir` appends the new directory. -/
theorem os_mkdir_ok (dirs : List String) (p : String) (d2 : List String)
    (h : os_mkdir dirs p = .ok d2) : d2 = dirs ++ [p] := by
  rw [os_mkdir] at h
  by_cases hp : p ∈ dirs
  · rw [if_pos hp] at h
    exact Except.noConfusion h
  · rw [if_neg hp] at h
    cases hpar : parentOf p with
    | none =>
      simp only [hpar] at h
      exact (Except.ok.inj h).symm
    | some par =>
      simp only [hpar] at h
      by_cases hmem : par ∈ dirs
      · rw [if_pos hmem] at h
        exact (Except.ok.inj h).symm
      · rw [if_neg hmem] at h
        exact Except.noConfusion h

/-- The raw `mkdir` reports "already exists" only when the directory is
already present. -/
theorem os_mkdir_exists_mem (dirs : List String) (p : String)
    (h : os_mkdir dirs p = .error .fileExists) : p ∈ dirs := by
  by_cases hp : p ∈ dirs
  · exact hp
  · exfalso
    rw [os_mkdir, if_neg hp] at h
    cases hpar : parentOf p with
    | none =>
      simp only [hpar] at h
      exact Except.noConfusion h
    | some par =>
      simp only [hpar] at h
      by_cases hmem : par ∈ dirs
      · rw [if_pos hmem] at h
        exact Except.noConfusion h
      · rw [if_neg hmem] at h
        exact absurd (Except.error.inj h) (by simp)

/-- A successful guarded `mkdir` leaves the target directory present. -/
theorem mkdirIgnoreExisting_mem (dirs : List String) (p : String)
    (d2 : List String) (h : mkdirIgnoreExisting dirs p = .ok d2) : p ∈ d2 := by
  rw [mkdirIgnoreExisting] at h
  cases hm : os_mkdir dirs p with
  | ok d =>
    rw [hm] at h
    have hd : d = d2 := Except.ok.inj h
    subst hd
    rw [os_mkdir_ok dirs p d hm]
    simp
  | error e =>
    rw [hm] at h
    cases e with
    | fileExists =>
      have hd : dirs = d2 := Except.ok.inj h
      subst hd
      exact os_mkdir_exists_mem dirs p hm
    | fileNotFound => exact Except.noConfusion h

/-! ## Claim theorems: slice exporter -/

/-- C1: for every axis of extent `E` and slide count `N` (whenever the
stride `E / N` is positive, i.e. a sequence is generated at all), the
sample-location sequence of the slice exporter is the arithmetic
progression starting at `(E / N) / 3` with stride `E / N`, contains no
location `≥ E`, and for `E = 100`, `N = 5` it is `[6, 26, 46, 66, 86]`. -/
theorem c1_locs_progression (E N : Nat) (h : 0 < E / N) :
    locs E N =
      some ((List.range (numLocs E N)).map (fun i => E / N / 3 + i * (E / N)))
    ∧ (∀ L, locs E N = some L → ∀ x ∈ L, x < E)
    ∧ locs 100 5 = some [6, 26, 46, 66, 86] := by
  refine ⟨locs_eq_some E N h, ?_, by decide⟩
  intro L hL x hx
  exact pyRange_mem_lt (E / N / 3) E (E / N) x h L hL hx

/-- Witness for C1 at the spec's example `E = 100`, `N = 5`. -/
theorem c1_locs_progression_witness :
    locs 100 5 =
      some ((List.range (numLocs 100 5)).map (fun i => 100 / 5 / 3 + i * (100 / 5)))
    ∧ (∀ L, locs 100 5 = some L → ∀ x ∈ L, x < 100)
    ∧ locs 100 5 = some [6, 26, 46, 66, 86] :=
  c1_locs_progression 100 5 (by decide)

/-- C2 (counterexample): for extent `E = 7` and slide count `N = 5` the
generated sequence has `7` elements, not `5`. -/
theorem c2_locs_count_counterexample :
    (locs 7 5).map List.length = some 7
    ∧ ¬ (locs 7 5).map List.length = some 5 := by
  constructor <;> decide

/-- C2 (amended): for every extent `E ≥ N > 0`, the slice exporter's
location sequence has at least `N` elements, and exactly `N` elements
whenever `E % N ≤ (E / N) / 3` (in particular when `N` divides `E`, as in
the spec's example `E = 100`, `N = 5`). -/
theorem c2_locs_count (E N : Nat) (hN : 0 < N) (hE : N ≤ E) :
    (∀ L, locs E N = some L → N ≤ L.length)
    ∧ (E % N ≤ E / N / 3 → (locs E N).map List.length = some N) := by
  have hs : 0 < E / N := Nat.div_pos hE hN
  have hsome := locs_eq_some E N hs
  constructor
  · intro L hL
    rw [hsome] at hL
    have : L.length = numLocs E N := by
      rw [← Option.some.inj hL, List.length_map, List.length_range]
    rw [this]
    exact numLocs_ge E N hN hE
  · intro hr
    rw [hsome]
    simp [numLocs_eq E N hN hE hr]

/-- Witness for C2 (amended) at `E = 100`, `N = 5`. -/
theorem c2_locs_count_witness :
    (∀ L, locs 100 5 = some L → 5 ≤ L.length)
    ∧ (100 % 5 ≤ 100 / 5 / 3 → (locs 100 5).map List.length = some 5) :=
  c2_locs_count 100 5 (by decide) (by decide)

/-- C9: when the extent `E` is strictly below the slide count `N > 0`, the
stride `E / N` is zero and generating the location sequence fails (Python's
zero-step `range` raises); conversely any successful generation forces
`E ≥ N`. -/
theorem c9_locs_zero_stride (E N : Nat) (hN : 0 < N) :
    (E < N → E / N = 0 ∧ locs E N = none)
    ∧ (∀ L, locs E N = some L → N ≤ E) := by
  constructor
  · intro hEN
    have hz : E / N = 0 := Nat.div_eq_of_lt hEN
    refine ⟨hz, ?_⟩
    rw [locs, hz]
    rfl
  · intro L hL
    by_contra hc
    push_neg at hc
    have hz : E / N = 0 := Nat.div_eq_of_lt hc
    rw [locs, hz] at hL
    exact Option.noConfusion hL

/-- Witness for C9 at `E = 3`, `N = 5`. -/
theorem c9_locs_zero_stride_witness :
    3 / 5 = 0 ∧ locs 3 5 = none :=
  (c9_locs_zero_stride 3 5 (by decide)).1 (by decide)

/-! ## Claim theorems: metric reporter -/

/-- C3: the parameter preset is selected solely by whether the metric name
begins with `"local"`: such names select `local_kwargs`, every other name
selects `support_kwargs`; in particular `"support_hellinger"` selects the
support preset and `"local_corr"` the local preset. -/
theorem c3_kwargs_selection (name : String) :
    (selectKwargs name = local_kwargs ↔ pyStartswith name "local" = true)
    ∧ (selectKwargs name = support_kwargs ↔ pyStartswith name "local" = false)
    ∧ selectKwargs "support_hellinger" = support_kwargs
    ∧ selectKwargs "local_corr" = local_kwargs := by
  have hne : local_kwargs ≠ support_kwargs := by decide
  have hne2 : support_kwargs ≠ local_kwargs := by decide
  refine ⟨?_, ?_, by decide, by decide⟩ <;>
    cases hb : pyStartswith name "local" <;>
      simp [selectKwargs, hb, hne, hne2]

/-- C4: guarded directory creation is idempotent — creating an existing
directory succeeds and changes nothing, re-running a successful creation
changes nothing further — and the already-exists error is the only
swallowed failure: any other `os.mkdir` error propagates unchanged. -/
theorem c4_mkdir_idempotent (dirs : List String) (p : String) :
    (p ∈ dirs → mkdirIgnoreExisting dirs p = .ok dirs)
    ∧ (∀ d2, mkdirIgnoreExisting dirs p = .ok d2 →
        mkdirIgnoreExisting d2 p = .ok d2)
    ∧ (∀ e, e ≠ MkdirError.fileExists → os_mkdir dirs p = .error e →
        mkdirIgnoreExisting dirs p = .error e) := by
  have hexisting : ∀ (ds : List String), p ∈ ds →
      mkdirIgnoreExisting ds p = .ok ds := by
    intro ds hp
    rw [mkdirIgnoreExisting, os_mkdir, if_pos hp]
  refine ⟨hexisting dirs, ?_, ?_⟩
  · intro d2 h
    exact hexisting d2 (mkdirIgnoreExisting_mem dirs p d2 h)
  · intro e he hm
    rw [mkdirIgnoreExisting, hm]
    cases e with
    | fileExists => exact absurd rfl he
    | fileNotFound => rfl

/-- Witness for C4: the filesystem already holding `cube_demo`, creating it
again. -/
theorem c4_mkdir_idempotent_witness :
    mkdirIgnoreExisting ["cube_demo"] "cube_demo" = .ok ["cube_demo"] :=
  (c4_mkdir_idempotent ["cube_demo"] "cube_demo").1 (by decide)

/-- C5: the parameter-suffix encoding is deterministic, and order-preserving:
splitting the suffix at the separator recovers exactly the `key:value`
encoding of each dictionary entry, in the dictionary's entry order
(provided the dictionary is nonempty and no encoded entry contains the
separator, as holds for both presets). -/
theorem c5_suffix_order (kw : List (String × PyVal)) (hne : kw ≠ [])
    (hsep : ∀ pair ∈ kw, '|' ∉ (encodePair pair).data) :
    (∀ kw2, kw = kw2 → paramSuffix kw = paramSuffix kw2)
    ∧ splitOnChar '|' (paramSuffix kw).data
        = kw.map (fun pair => (encodePair pair).data) := by
  refine ⟨fun kw2 h => h ▸ rfl, ?_⟩
  rw [paramSuffix, joinWith_data]
  have hbar : ("|" : String).data = ['|'] := rfl
  rw [hbar, splitOnChar_joinData '|' ((kw.map encodePair).map String.data)
    (by simp [hne]) ?_, List.map_map]
  · rfl
  · intro p hp
    rw [List.map_map] at hp
    obtain ⟨pair, hpair, hpd⟩ := List.mem_map.mp hp
    exact hpd ▸ hsep pair hpair

/-- Witness for C5 at the support preset. -/
theorem c5_suffix_order_witness :
    (∀ kw2, support_kwargs = kw2 → paramSuffix support_kwargs = paramSuffix kw2)
    ∧ splitOnChar '|' (paramSuffix support_kwargs).data
        = support_kwargs.map (fun pair => (encodePair pair).data) :=
  c5_suffix_order support_kwargs (by decide) (by decide)

/-- C6: for every evaluator and metric list, the per-cube body first
evaluates each named metric in list order, and its final call is the
quality-map evaluation, receiving exactly the list of per-metric results,
one per metric name, in evaluation order. -/
theorem c6_quality_map_receives_all {α : Type}
    (ev : String → List (String × PyVal) → α) (metrics : List String) :
    processCube ev metrics
      = (metrics.map (fun m =>
          MEvent.evalMetric m (selectKwargs m) (ev m (selectKwargs m))))
        ++ [MEvent.evalQualityMap (metrics.map (fun m => ev m (selectKwargs m)))] := by
  rw [processCube, metricLoop_eq ev metrics [] []]
  simp

/-- C8: with filename prefixing on and a nonempty metric list, the suffix
appended to the quality-map save path is the encoding of the preset
selected for the *last* metric name (the leaked loop variable `kwargs`);
the quality-map call's own `quantiles` argument appears nowhere in it. -/
theorem c8_quality_map_leaked_kwargs (cube_dir : String)
    (metrics : List String) (h : metrics ≠ []) :
    qualityMapSavePath cube_dir metrics true
      = some (joinWith "/" [cube_dir, "quality_map"] ++ "@"
          ++ paramSuffix (selectKwargs (metrics.getLast h)))
    ∧ ¬ "quantiles".data <:+: (paramSuffix (selectKwargs (metrics.getLast h))).data := by
  constructor
  · rw [qualityMapSavePath, if_pos rfl, finalKwargs,
      foldl_selectKwargs_last metrics h]
    rfl
  · by_cases hb : pyStartswith (metrics.getLast h) "local" <;>
      simp only [selectKwargs, hb, if_pos, if_neg, Bool.false_eq_true,
        ite_true, ite_false] <;> decide

/-- Witness for C8 at the notebook's configured metric list. -/
theorem c8_quality_map_leaked_kwargs_witness :
    qualityMapSavePath "cube_metrics/CUBE_01"
        ["support_hellinger", "support_corrs"] true
      = some (joinWith "/" ["cube_metrics/CUBE_01", "quality_map"] ++ "@"
          ++ paramSuffix (selectKwargs
              ((["support_hellinger", "support_corrs"] : List String).getLast
                (by decide))))
    ∧ ¬ "quantiles".data <:+: (paramSuffix (selectKwargs
          ((["support_hellinger", "support_corrs"] : List String).getLast
            (by decide)))).data :=
  c8_quality_map_leaked_kwargs "cube_metrics/CUBE_01"
    ["support_hellinger", "support_corrs"] (by decide)

/-! ## Claim theorems: iterative-results summarizer -/

/-- C7: a composite key containing exactly one delimiter splits into
exactly the two surrounding substrings, and the two-level index built from
a table of such keys has one row per input row, the `i`-th index pair being
exactly the split of the `i`-th key. -/
theorem c7_key_split (α : Type) :
    (∀ cs : List Char, cs.count '+' = 1 →
      ∃ a b, splitOnChar '+' cs = [a, b] ∧ cs = a ++ '+' :: b)
    ∧ (∀ rows : List (ResRow α),
        (∀ r ∈ rows, r.cube_and_horizon.data.count '+' = 1) →
        ∃ t, addKeyColumns rows = some t
          ∧ (setIndexRows t).length = rows.length
          ∧ ∀ (i : Nat) (h1 : i < (setIndexRows t).length) (h2 : i < rows.length),
              ((setIndexRows t).get ⟨i, h1⟩).cube_name.data ++ '+' ::
                  ((setIndexRows t).get ⟨i, h1⟩).horizon_name.data
                = ((rows.get ⟨i, h2⟩).cube_and_horizon).data) := by
  constructor
  · intro cs h
    obtain ⟨a, b, hsplit, hdec, _, _⟩ := split_count_one '+' cs h
    exact ⟨a, b, hsplit, hdec⟩
  · intro rows
    induction rows with
    | nil =>
      intro _
      exact ⟨[], rfl, rfl, fun i h1 _ => absurd h1 (by simp [setIndexRows])⟩
    | cons r rest ih =>
      intro hrows
      obtain ⟨a, b, hkp, hdec, _, _⟩ :=
        keyParts_of_count_one r.cube_and_horizon (hrows r (by simp))
      obtain ⟨t, ht, hlen, hidx⟩ := ih (fun r2 hr2 => hrows r2 (by simp [hr2]))
      refine ⟨⟨r, String.mk a, String.mk b⟩ :: t, ?_, ?_, ?_⟩
      · rw [addKeyColumns, hkp, ht]
      · simpa [setIndexRows] using hlen
      · intro i h1 h2
        cases i with
        | zero => exact hdec.symm
        | succ j =>
          have hcons : setIndexRows ((⟨r, String.mk a, String.mk b⟩ : KeyedRow α) :: t)
              = (⟨String.mk a, String.mk b, r.coverages, r.window_rates,
                  r.corrs, r.local_corrs⟩ : IndexedRow α) :: setIndexRows t := rfl
          have h1' : j < (setIndexRows t).length := by
            rw [hcons] at h1
            simpa using h1
          have h2' : j < rest.length := by simpa using h2
          have := hidx j h1' h2'
          simpa [hcons] using this

/-- Witness for C7 at a concrete key and a one-row table. -/
theorem c7_key_split_witness :
    ∃ a b, splitOnChar '+' ("M_cube+t0_J1_anon".data) = [a, b]
      ∧ "M_cube+t0_J1_anon".data = a ++ '+' :: b :=
  (c7_key_split Nat).1 "M_cube+t0_J1_anon".data (by decide)

/-- C10: the summarizer never mutates the loaded results store: the whole
projection / key-split / re-index / reshape pipeline threads the store
through untouched (the projection is a copy with identical contents, and
all later steps build new tables from it). -/
theorem c10_store_unchanged {α : Type} (store : ResultsStore α) :
    (summarize store).1 = store ∧ projectDf store.df = store.df := by
  constructor
  · rw [summarize]
    cases addKeyColumns (projectDf store.df) <;> rfl
  · simp [projectDf]

end Seismiqb
